import Mathlib

/-!
Shallow embedding of the PINE IPC client (`src/lib.rs`): command/response
data model, opcode table, batch encoder (`PINEBatch.new/add/finalize`),
wire decoding (`read_u8/u16/u32/u64`, `read_string`), the client exchange
(`PINE.send_raw`, `PINE.send`) and connection dispatch (`PINE.connect`).

Bytes are modelled as `Nat` (values kept below 256 by the encoders via
`% 256`); machine-width casts are explicit `% 2^w`.  The byte stream read
from the socket is explicit state: a decoding function takes the list of
bytes still unread and returns the value together with the bytes that
remain, or an error.  Rust `Result`'s `Err(io::Error)` is `.error .ioError`;
a Rust panic (an `unwrap` on invalid UTF-8, or the arithmetic underflow of
`res_size - 5`) is modelled as a distinguished error constructor, since a
panic never returns a `Result` to the caller.
-/

set_option maxRecDepth 8192

/-- Failure outcomes of the client's receive/decode path.  `ioError` models
`Err(std::io::Error)` returned to the caller; the two `panic` constructors
model Rust panics, which abort rather than return. -/
inductive SendErr : Type
  | ioError
  | panicUnderflow
  | panicInvalidUtf8
deriving DecidableEq, Repr

/-- `enum PINEResult<T> { Ok(Vec<T>), Fail }` from the source. -/
inductive PINEResult (α : Type) : Type
  | Ok (val : List α)
  | Fail
deriving DecidableEq, Repr

/-- `enum PINECommand` from the source: one case per opcode, each carrying
its typed payload (`mem : u32`, `val : u8/u16/u32/u64`, `sta : u8`). -/
inductive PINECommand : Type
  | MsgRead8 (mem : Nat)
  | MsgRead16 (mem : Nat)
  | MsgRead32 (mem : Nat)
  | MsgRead64 (mem : Nat)
  | MsgWrite8 (mem : Nat) (val : Nat)
  | MsgWrite16 (mem : Nat) (val : Nat)
  | MsgWrite32 (mem : Nat) (val : Nat)
  | MsgWrite64 (mem : Nat) (val : Nat)
  | MsgVersion
  | MsgSaveState (sta : Nat)
  | MsgLoadState (sta : Nat)
  | MsgTitle
  | MsgID
  | MsgUUID
  | MsgGameVersion
  | MsgStatus
  | MsgUnimplemented
deriving DecidableEq, Repr

/-- `PINECommand::to_opcode` from the source. -/
def PINECommand.to_opcode : PINECommand → Nat
  | .MsgRead8 _ => 0
  | .MsgRead16 _ => 1
  | .MsgRead32 _ => 2
  | .MsgRead64 _ => 3
  | .MsgWrite8 _ _ => 4
  | .MsgWrite16 _ _ => 5
  | .MsgWrite32 _ _ => 6
  | .MsgWrite64 _ _ => 7
  | .MsgVersion => 8
  | .MsgSaveState _ => 9
  | .MsgLoadState _ => 10
  | .MsgTitle => 11
  | .MsgID => 12
  | .MsgUUID => 13
  | .MsgGameVersion => 14
  | .MsgStatus => 15
  | .MsgUnimplemented => 255

/-- `enum PINEStatus` from the source. -/
inductive PINEStatus : Type
  | Running
  | Paused
  | Shutdown
  | Unknown
deriving DecidableEq, Repr

/-- `PINEStatus::from` from the source (named `fromU32` because `from` is a
keyword in Lean). -/
def PINEStatus.fromU32 (i : Nat) : PINEStatus :=
  if i = 0 then .Running
  else if i = 1 then .Paused
  else if i = 2 then .Shutdown
  else .Unknown

/-- `enum PINEResponse` from the source.  A Rust `String` is modelled as its
list of Unicode scalar values (code points). -/
inductive PINEResponse : Type
  | ResRead8 (val : Nat)
  | ResRead16 (val : Nat)
  | ResRead32 (val : Nat)
  | ResRead64 (val : Nat)
  | ResWrite8
  | ResWrite16
  | ResWrite32
  | ResWrite64
  | ResVersion (version : List Nat)
  | ResSaveState
  | ResLoadState
  | ResTitle (title : List Nat)
  | ResID (id : List Nat)
  | ResUUID (uuid : List Nat)
  | ResGameVersion (version : List Nat)
  | ResStatus (status : PINEStatus)
  | ResUnimplemented
deriving DecidableEq, Repr

/-- The opcode of the command a response variant answers; pairs each
`Res*` constructor with the `Msg*` opcode in the source's tables. -/
def PINEResponse.opcodeOf : PINEResponse → Nat
  | .ResRead8 _ => 0
  | .ResRead16 _ => 1
  | .ResRead32 _ => 2
  | .ResRead64 _ => 3
  | .ResWrite8 => 4
  | .ResWrite16 => 5
  | .ResWrite32 => 6
  | .ResWrite64 => 7
  | .ResVersion _ => 8
  | .ResSaveState => 9
  | .ResLoadState => 10
  | .ResTitle _ => 11
  | .ResID _ => 12
  | .ResUUID _ => 13
  | .ResGameVersion _ => 14
  | .ResStatus _ => 15
  | .ResUnimplemented => 255

/-- The shape of data a response variant carries: an integer value, an
empty marker, a string, or a `PINEStatus`. -/
inductive RespKind : Type
  | intVal
  | emptyMarker
  | strVal
  | statusVal
deriving DecidableEq, Repr

/-- The kind of response each command variant produces (reads yield
integers, writes and save/load-state yield empty markers, string queries
yield strings, the status query yields a `PINEStatus`). -/
def PINECommand.respKind : PINECommand → RespKind
  | .MsgRead8 _ => .intVal
  | .MsgRead16 _ => .intVal
  | .MsgRead32 _ => .intVal
  | .MsgRead64 _ => .intVal
  | .MsgWrite8 _ _ => .emptyMarker
  | .MsgWrite16 _ _ => .emptyMarker
  | .MsgWrite32 _ _ => .emptyMarker
  | .MsgWrite64 _ _ => .emptyMarker
  | .MsgVersion => .strVal
  | .MsgSaveState _ => .emptyMarker
  | .MsgLoadState _ => .emptyMarker
  | .MsgTitle => .strVal
  | .MsgID => .strVal
  | .MsgUUID => .strVal
  | .MsgGameVersion => .strVal
  | .MsgStatus => .statusVal
  | .MsgUnimplemented => .emptyMarker

/-- The kind of data a response variant carries. -/
def PINEResponse.kindOf : PINEResponse → RespKind
  | .ResRead8 _ => .intVal
  | .ResRead16 _ => .intVal
  | .ResRead32 _ => .intVal
  | .ResRead64 _ => .intVal
  | .ResWrite8 => .emptyMarker
  | .ResWrite16 => .emptyMarker
  | .ResWrite32 => .emptyMarker
  | .ResWrite64 => .emptyMarker
  | .ResVersion _ => .strVal
  | .ResSaveState => .emptyMarker
  | .ResLoadState => .emptyMarker
  | .ResTitle _ => .strVal
  | .ResID _ => .strVal
  | .ResUUID _ => .strVal
  | .ResGameVersion _ => .strVal
  | .ResStatus _ => .statusVal
  | .ResUnimplemented => .emptyMarker

/-- Little-endian byte encoding of width `w`: models Rust's
`uN::to_le_bytes` (the value is truncated to `w` bytes, matching the
fixed-width machine type). -/
def toLeBytes : Nat → Nat → List Nat
  | 0, _ => []
  | w + 1, n => n % 256 :: toLeBytes w (n / 256)

/-- `u8::to_le_bytes` (a single byte). -/
def u8ToLeBytes (n : Nat) : List Nat := toLeBytes 1 n

/-- `u16::to_le_bytes`. -/
def u16ToLeBytes (n : Nat) : List Nat := toLeBytes 2 n

/-- `u32::to_le_bytes`. -/
def u32ToLeBytes (n : Nat) : List Nat := toLeBytes 4 n

/-- `u64::to_le_bytes`. -/
def u64ToLeBytes (n : Nat) : List Nat := toLeBytes 8 n

/-- Little-endian value of a byte list: models `uN::from_le_bytes`. -/
def fromLeBytes : List Nat → Nat
  | [] => 0
  | b :: bs => b + 256 * fromLeBytes bs

/-- `struct PINEBatch { buffer: Vec<u8>, commands: Vec<PINECommand> }`. -/
structure PINEBatch : Type where
  buffer : List Nat
  commands : List PINECommand
deriving DecidableEq, Repr

/-- `PINEBatch::new`: the first four bytes are reserved for the message
length. -/
def PINEBatch.new : PINEBatch :=
  { buffer := [0x00, 0x00, 0x00, 0x00], commands := [] }

/-- `PINEBatch::clear`. -/
def PINEBatch.clear (_b : PINEBatch) : PINEBatch :=
  { buffer := [], commands := [] }

/-- `PINEBatch::add`: push the opcode byte, then the payload bytes of the
matched arm, then push the command onto the command list. -/
def PINEBatch.add (b : PINEBatch) (command : PINECommand) : PINEBatch :=
  let buf := b.buffer ++ [command.to_opcode]
  let buf := buf ++
    (match command with
     | .MsgRead8 mem => u32ToLeBytes mem
     | .MsgRead16 mem => u32ToLeBytes mem
     | .MsgRead32 mem => u32ToLeBytes mem
     | .MsgRead64 mem => u32ToLeBytes mem
     | .MsgWrite8 mem val => u32ToLeBytes mem ++ u8ToLeBytes val
     | .MsgWrite16 mem val => u32ToLeBytes mem ++ u16ToLeBytes val
     | .MsgWrite32 mem val => u32ToLeBytes mem ++ u32ToLeBytes val
     | .MsgWrite64 mem val => u32ToLeBytes mem ++ u64ToLeBytes val
     | .MsgSaveState sta => u8ToLeBytes sta
     | .MsgLoadState sta => u8ToLeBytes sta
     | _ => [])
  { buffer := buf, commands := b.commands ++ [command] }

/-- `PINEBatch::finalize`: `size = buffer.len() as u32` (the usize→u32 cast
is the explicit `% 2^32`), then `splice(0..4, size.to_le_bytes())`, i.e.
the first four bytes are replaced by the length bytes; the full buffer is
the wire payload. -/
def PINEBatch.finalize (b : PINEBatch) : PINEBatch :=
  let size := b.buffer.length % 2 ^ 32
  { buffer := u32ToLeBytes size ++ b.buffer.drop 4, commands := b.commands }

/-- `read_exact` on the byte stream: take exactly `n` bytes or fail with an
I/O error (`UnexpectedEof`), returning the bytes read and the rest of the
stream. -/
def readExact (n : Nat) (s : List Nat) : Except SendErr (List Nat × List Nat) :=
  if n ≤ s.length then .ok (s.take n, s.drop n) else .error .ioError

/-- `read_u8` from the source (`read_impl!` at width 1). -/
def read_u8 (s : List Nat) : Except SendErr (Nat × List Nat) :=
  match readExact 1 s with
  | .error e => .error e
  | .ok (buf, s1) => .ok (fromLeBytes buf, s1)

/-- `read_u16` from the source (`read_impl!` at width 2). -/
def read_u16 (s : List Nat) : Except SendErr (Nat × List Nat) :=
  match readExact 2 s with
  | .error e => .error e
  | .ok (buf, s1) => .ok (fromLeBytes buf, s1)

/-- `read_u32` from the source (`read_impl!` at width 4). -/
def read_u32 (s : List Nat) : Except SendErr (Nat × List Nat) :=
  match readExact 4 s with
  | .error e => .error e
  | .ok (buf, s1) => .ok (fromLeBytes buf, s1)

/-- `read_u64` from the source (`read_impl!` at width 8). -/
def read_u64 (s : List Nat) : Except SendErr (Nat × List Nat) :=
  match readExact 8 s with
  | .error e => .error e
  | .ok (buf, s1) => .ok (fromLeBytes buf, s1)

/-- Decode the continuation byte of a 2-byte UTF-8 sequence led by `b0`. -/
def utf8DecodeCont2 (b0 : Nat) : List Nat → Option (Nat × List Nat)
  | b1 :: rest =>
    if 0x80 ≤ b1 ∧ b1 < 0xC0 then some ((b0 - 0xC0) * 0x40 + (b1 - 0x80), rest)
    else none
  | [] => none

/-- Decode the continuation bytes of a 3-byte UTF-8 sequence led by `b0`
(rejecting overlong encodings and surrogates). -/
def utf8DecodeCont3 (b0 : Nat) : List Nat → Option (Nat × List Nat)
  | b1 :: b2 :: rest =>
    if (0x80 ≤ b1 ∧ b1 < 0xC0) ∧ (0x80 ≤ b2 ∧ b2 < 0xC0) then
      let c := (b0 - 0xE0) * 0x1000 + (b1 - 0x80) * 0x40 + (b2 - 0x80)
      if c < 0x800 ∨ (0xD800 ≤ c ∧ c < 0xE000) then none else some (c, rest)
    else none
  | _ => none

/-- Decode the continuation bytes of a 4-byte UTF-8 sequence led by `b0`
(rejecting overlong encodings and values above U+10FFFF). -/
def utf8DecodeCont4 (b0 : Nat) : List Nat → Option (Nat × List Nat)
  | b1 :: b2 :: b3 :: rest =>
    if (0x80 ≤ b1 ∧ b1 < 0xC0) ∧ (0x80 ≤ b2 ∧ b2 < 0xC0) ∧ (0x80 ≤ b3 ∧ b3 < 0xC0) then
      let c := (b0 - 0xF0) * 0x40000 + (b1 - 0x80) * 0x1000 +
               (b2 - 0x80) * 0x40 + (b3 - 0x80)
      if c < 0x10000 ∨ 0x110000 ≤ c then none else some (c, rest)
    else none
  | _ => none

/-- Decode one UTF-8 character from the front of the byte list, returning
the scalar value and the remaining bytes, mirroring the per-character
validation of `std::str::from_utf8` (lead bytes 0x80..0xC1 and ≥ 0xF5 are
invalid). -/
def utf8DecodeChar : List Nat → Option (Nat × List Nat)
  | [] => none
  | b0 :: rest =>
    if b0 < 0x80 then some (b0, rest)
    else if b0 < 0xC2 then none
    else if b0 < 0xE0 then utf8DecodeCont2 b0 rest
    else if b0 < 0xF0 then utf8DecodeCont3 b0 rest
    else if b0 < 0xF5 then utf8DecodeCont4 b0 rest
    else none

/-- Decode a whole byte list character by character; `fuel` bounds the
number of characters and only needs to be at least the list length. -/
def utf8DecodeLoop : Nat → List Nat → Option (List Nat)
  | _, [] => some []
  | 0, _ :: _ => none
  | fuel + 1, b0 :: rest =>
    match utf8DecodeChar (b0 :: rest) with
    | none => none
    | some (c, rest2) => (utf8DecodeLoop fuel rest2).map (fun cs => c :: cs)

/-- UTF-8 decoding of a byte list into Unicode scalar values, mirroring the
validation of `std::str::from_utf8` (rejects stray continuation bytes,
overlong encodings, surrogates, and values above U+10FFFF). -/
def utf8Decode (l : List Nat) : Option (List Nat) := utf8DecodeLoop l.length l

/-- UTF-8 encoding of one Unicode scalar value. -/
def utf8EncodeChar (c : Nat) : List Nat :=
  if c < 0x80 then [c]
  else if c < 0x800 then [0xC0 + c / 0x40, 0x80 + c % 0x40]
  else if c < 0x10000 then [0xE0 + c / 0x1000, 0x80 + c / 0x40 % 0x40, 0x80 + c % 0x40]
  else [0xF0 + c / 0x40000, 0x80 + c / 0x1000 % 0x40, 0x80 + c / 0x40 % 0x40, 0x80 + c % 0x40]

/-- UTF-8 encoding of a string given as its Unicode scalar values (the byte
content of a Rust `String`). -/
def utf8Encode : List Nat → List Nat
  | [] => []
  | c :: cs => utf8EncodeChar c ++ utf8Encode cs

/-- `read_string` from the source: read a u32 length, read that many bytes,
`from_utf8(..).unwrap()` — a panic, not an `Err`, when the bytes are not
valid UTF-8 — then `String::pop`, which removes the last *character*
(`List.dropLast` on the scalar values). -/
def read_string (s : List Nat) : Except SendErr (List Nat × List Nat) :=
  match read_u32 s with
  | .error e => .error e
  | .ok (size, s1) =>
    match readExact size s1 with
    | .error e => .error e
    | .ok (buffer, s2) =>
      match utf8Decode buffer with
      | none => .error .panicInvalidUtf8
      | some cs => .ok (cs.dropLast, s2)

/-- One arm of the response-parsing loop in `PINE::send`: decode the
response dictated by `command` from the front of the payload. -/
def decodeResponse (command : PINECommand) (s : List Nat) :
    Except SendErr (PINEResponse × List Nat) :=
  match command with
  | .MsgRead8 _ =>
    match read_u8 s with
    | .error e => .error e
    | .ok (val, s1) => .ok (.ResRead8 val, s1)
  | .MsgRead16 _ =>
    match read_u16 s with
    | .error e => .error e
    | .ok (val, s1) => .ok (.ResRead16 val, s1)
  | .MsgRead32 _ =>
    match read_u32 s with
    | .error e => .error e
    | .ok (val, s1) => .ok (.ResRead32 val, s1)
  | .MsgRead64 _ =>
    match read_u64 s with
    | .error e => .error e
    | .ok (val, s1) => .ok (.ResRead64 val, s1)
  | .MsgWrite8 _ _ => .ok (.ResWrite8, s)
  | .MsgWrite16 _ _ => .ok (.ResWrite16, s)
  | .MsgWrite32 _ _ => .ok (.ResWrite32, s)
  | .MsgWrite64 _ _ => .ok (.ResWrite64, s)
  | .MsgVersion =>
    match read_string s with
    | .error e => .error e
    | .ok (version, s1) => .ok (.ResVersion version, s1)
  | .MsgSaveState _ => .ok (.ResSaveState, s)
  | .MsgLoadState _ => .ok (.ResLoadState, s)
  | .MsgTitle =>
    match read_string s with
    | .error e => .error e
    | .ok (title, s1) => .ok (.ResTitle title, s1)
  | .MsgID =>
    match read_string s with
    | .error e => .error e
    | .ok (id, s1) => .ok (.ResID id, s1)
  | .MsgUUID =>
    match read_string s with
    | .error e => .error e
    | .ok (uuid, s1) => .ok (.ResUUID uuid, s1)
  | .MsgGameVersion =>
    match read_string s with
    | .error e => .error e
    | .ok (version, s1) => .ok (.ResGameVersion version, s1)
  | .MsgStatus =>
    match read_u32 s with
    | .error e => .error e
    | .ok (i, s1) => .ok (.ResStatus (PINEStatus.fromU32 i), s1)
  | .MsgUnimplemented => .ok (.ResUnimplemented, s)

/-- The response-parsing loop of `PINE::send`: walk the command list in
order, decoding each command's response from the cursor. -/
def decodeResponses :
    List PINECommand → List Nat → Except SendErr (List PINEResponse × List Nat)
  | [], s => .ok ([], s)
  | c :: cs, s =>
    match decodeResponse c s with
    | .error e => .error e
    | .ok (r, s1) =>
      match decodeResponses cs s1 with
      | .error e => .error e
      | .ok (rs, s2) => .ok (r :: rs, s2)

/-- `PINE::send_raw`.  `_buffer` is the request written to the socket (its
effect on the peer is outside the model); `incoming` is the byte stream
available to read from the socket; the result pairs the source's return
value with the bytes left unread on the stream.  When the declared size is
below 5 with a zero status, `res_size as usize - 5` underflows and Rust
panics — the `.panicUnderflow` outcome. -/
def PINE.send_raw (_buffer incoming : List Nat) :
    Except SendErr (PINEResult Nat × List Nat) :=
  match read_u32 incoming with
  | .error e => .error e
  | .ok (res_size, s1) =>
    match read_u8 s1 with
    | .error e => .error e
    | .ok (res_result, s2) =>
      if res_result ≠ 0 then .ok (.Fail, s2)
      else if res_size < 5 then .error .panicUnderflow
      else
        match readExact (res_size - 5) s2 with
        | .error e => .error e
        | .ok (res_buffer, s3) => .ok (.Ok res_buffer, s3)

/-- `PINE::send`: finalize the batch, exchange it via `send_raw`, then
parse one response per command over a cursor into the returned payload. -/
def PINE.send (batch : PINEBatch) (incoming : List Nat) :
    Except SendErr (PINEResult PINEResponse × List Nat) :=
  let buffer := batch.finalize.buffer
  match PINE.send_raw buffer incoming with
  | .error e => .error e
  | .ok (.Fail, s) => .ok (.Fail, s)
  | .ok (.Ok res_buffer, s) =>
    match decodeResponses batch.commands res_buffer with
    | .error e => .error e
    | .ok (res, _) => .ok (.Ok res, s)

/-- Outcome of `PINE::connect`: a connection, an `Err(String)` returned to
the caller (one constructor per distinct message in the source), or the
`panic!("Unsupported operating system")` of the wildcard arm, which aborts
instead of returning. -/
inductive ConnectOutcome : Type
  | okUnix
  | okWindows
  | errSocketNotFound
  | errUnixConnect
  | errTcpConnect
  | panicUnsupportedOS
deriving DecidableEq, Repr

/-- Whether a `connect` outcome is an error value returned to the caller
(`Err(String)` in the source). -/
def ConnectOutcome.isErrReturn : ConnectOutcome → Bool
  | .errSocketNotFound => true
  | .errUnixConnect => true
  | .errTcpConnect => true
  | _ => false

/-- The socket filename built in `PINE::connect`:
`format!("{target}.sock{}", ...)` with `.{slot}` appended unless `auto`. -/
def socketFilename (target : String) (slot : Nat) (auto : Bool) : String :=
  target ++ ".sock" ++ (if auto then "" else "." ++ toString slot)

/-- `PINE::connect`.  The environment pieces are parameters: `os` is
`env::consts::OS`; `envVar` the result of the `XDG_RUNTIME_DIR`/`TMPDIR`
lookup; `pathExists` whether the built socket path exists;
`unixConnectOk`/`tcpConnectOk` whether the stream connection succeeds. -/
def PINE.connect (os : String) (envVar : Option String) (target : String)
    (slot : Nat) (auto : Bool) (pathExists : String → Bool)
    (unixConnectOk tcpConnectOk : Bool) : ConnectOutcome :=
  if os = "linux" ∨ os = "macos" then
    let dir := match envVar with
      | some x => x
      | none => "/tmp"
    let path := dir ++ "/" ++ socketFilename target slot auto
    if pathExists path = false then .errSocketNotFound
    else if unixConnectOk then .okUnix
    else .errUnixConnect
  else if os = "windows" then
    if tcpConnectOk then .okWindows
    else .errTcpConnect
  else .panicUnsupportedOS

lemma toLeBytes_length (w n : Nat) : (toLeBytes w n).length = w := by
  induction w generalizing n with
  | zero => rfl
  | succ w ih => simp [toLeBytes, ih]

lemma fromLeBytes_toLeBytes (w n : Nat) :
    fromLeBytes (toLeBytes w n) = n % 256 ^ w := by
  induction w generalizing n with
  | zero => simp [toLeBytes, fromLeBytes, Nat.mod_one]
  | succ w ih =>
    simp only [toLeBytes, fromLeBytes, ih]
    rw [pow_succ, Nat.mul_comm (256 ^ w) 256, Nat.mod_mul]

lemma readExact_append (n : Nat) (xs ys : List Nat) (h : xs.length = n) :
    readExact n (xs ++ ys) = .ok (xs, ys) := by
  subst h
  simp [readExact, List.take_left, List.drop_left]

lemma read_u32_leBytes (k : Nat) (rest : List Nat) :
    read_u32 (u32ToLeBytes k ++ rest) = .ok (k % 2 ^ 32, rest) := by
  simp only [read_u32, u32ToLeBytes]
  rw [readExact_append 4 _ _ (toLeBytes_length 4 k)]
  dsimp only
  rw [fromLeBytes_toLeBytes]
  norm_num

lemma read_u8_cons (b : Nat) (rest : List Nat) :
    read_u8 (b :: rest) = .ok (b, rest) := by
  have h : readExact 1 (b :: rest) = .ok ([b], rest) := readExact_append 1 [b] rest rfl
  rw [read_u8, h]
  simp [fromLeBytes]

lemma read_u32_append (szb rest : List Nat) (h : szb.length = 4) :
    read_u32 (szb ++ rest) = .ok (fromLeBytes szb, rest) := by
  rw [read_u32, readExact_append 4 _ _ h]

lemma send_raw_eq (buffer szb rest : List Nat) (st : Nat) (h4 : szb.length = 4) :
    PINE.send_raw buffer (szb ++ st :: rest) =
      (if st ≠ 0 then .ok (.Fail, rest)
       else if fromLeBytes szb < 5 then .error .panicUnderflow
       else
         match readExact (fromLeBytes szb - 5) rest with
         | .error e => .error e
         | .ok (res_buffer, s3) => .ok (.Ok res_buffer, s3)) := by
  simp only [PINE.send_raw]
  rw [read_u32_append _ _ h4]
  dsimp only
  rw [read_u8_cons]

/-- C2: when `send_raw` reads a non-zero status byte it returns the
command-failure condition `Fail` (a bare marker carrying no partial data),
whatever the four declared-length bytes say, and the bytes following the
five header bytes are left unread on the transport. -/
theorem send_raw_nonzero_status_fails (buffer szb rest : List Nat) (st : Nat)
    (h4 : szb.length = 4) (hst : st ≠ 0) :
    PINE.send_raw buffer (szb ++ st :: rest) = .ok (.Fail, rest) := by
  rw [send_raw_eq buffer szb rest st h4, if_pos hst]

/-- Witness for C2 at a concrete input: declared length 9, status byte 255,
three trailing payload bytes that stay unread. -/
theorem send_raw_nonzero_status_fails_witness :
    PINE.send_raw [] ([9, 0, 0, 0] ++ 255 :: [1, 2, 3]) = .ok (.Fail, [1, 2, 3]) :=
  send_raw_nonzero_status_fails [] [9, 0, 0, 0] [1, 2, 3] 255 (by decide) (by decide)

/-- C9: with a zero status byte and a declared size below 5, `send_raw`
does not return an error value: the unguarded `res_size as usize - 5`
underflows and the call panics; conversely any successful `Ok` return
forces the declared size to be at least 5. -/
theorem send_raw_small_size_panics (buffer szb rest : List Nat)
    (h4 : szb.length = 4) :
    (fromLeBytes szb < 5 →
      PINE.send_raw buffer (szb ++ 0 :: rest) = .error .panicUnderflow) ∧
    (∀ p s, PINE.send_raw buffer (szb ++ 0 :: rest) = .ok (.Ok p, s) →
      5 ≤ fromLeBytes szb) := by
  rw [send_raw_eq buffer szb rest 0 h4]
  simp only [ne_eq, not_true_eq_false, if_false, reduceIte]
  constructor
  · intro h
    rw [if_pos h]
  · intro p s h
    by_contra hlt
    rw [if_pos (by omega)] at h
    exact Except.noConfusion h

/-- Witness for C9: declared size 4 (< 5), status 0 — the call ends in the
underflow panic. -/
theorem send_raw_small_size_panics_witness :
    PINE.send_raw [] ([4, 0, 0, 0] ++ 0 :: []) = .error .panicUnderflow :=
  (send_raw_small_size_panics [] [4, 0, 0, 0] [] (by decide)).1 (by decide)

/-- C3: `finalize` on a batch whose buffer holds `k` bytes in total (the
four reserved length bytes included) overwrites bytes [0,4) with the
little-endian u32 `k` — not `k - 4`, not `k + 4` — leaves the rest of the
buffer and the command list unchanged, and the whole buffer is the wire
payload. -/
theorem finalize_writes_total_length (b : PINEBatch)
    (h4 : 4 ≤ b.buffer.length) (hlt : b.buffer.length < 2 ^ 32) :
    b.finalize.buffer = u32ToLeBytes b.buffer.length ++ b.buffer.drop 4 ∧
    fromLeBytes (b.finalize.buffer.take 4) = b.buffer.length ∧
    b.finalize.buffer.drop 4 = b.buffer.drop 4 ∧
    b.finalize.buffer.length = b.buffer.length ∧
    b.finalize.commands = b.commands := by
  have hsize : b.buffer.length % 2 ^ 32 = b.buffer.length := Nat.mod_eq_of_lt hlt
  have hfin : b.finalize.buffer = u32ToLeBytes b.buffer.length ++ b.buffer.drop 4 := by
    simp only [PINEBatch.finalize, hsize]
  have hlen : (u32ToLeBytes b.buffer.length).length = 4 := toLeBytes_length 4 _
  refine ⟨hfin, ?_, ?_, ?_, rfl⟩
  · rw [hfin, ← hlen, List.take_left, u32ToLeBytes, fromLeBytes_toLeBytes]
    have : (256 : Nat) ^ 4 = 2 ^ 32 := by norm_num
    rw [this, hsize]
  · rw [hfin, ← hlen, List.drop_left]
  · rw [hfin]
    simp only [List.length_append, hlen, List.length_drop]
    omega

/-- Witness for C3: a batch holding one encoded `MsgRead8` (9 buffer bytes)
finalizes to a buffer whose first four bytes decode to 9. -/
theorem finalize_writes_total_length_witness :
    ((PINEBatch.new.add (PINECommand.MsgRead8 0)).finalize.buffer =
        u32ToLeBytes 9 ++ [0, 0, 0, 0, 0] ∧
      fromLeBytes ((PINEBatch.new.add (PINECommand.MsgRead8 0)).finalize.buffer.take 4) = 9) := by
  have h := finalize_writes_total_length (PINEBatch.new.add (PINECommand.MsgRead8 0))
    (by decide) (by decide)
  exact ⟨h.1, h.2.1⟩

lemma decodeResponse_matches (c : PINECommand) (s : List Nat) (r : PINEResponse)
    (s1 : List Nat) (h : decodeResponse c s = .ok (r, s1)) :
    r.opcodeOf = c.to_opcode ∧ r.kindOf = c.respKind := by
  cases c <;>
    (simp only [decodeResponse] at h
     repeat' split at h) <;>
    first
    | exact Except.noConfusion h
    | (injection h with h3
       injection h3 with h4 h5
       subst h4
       exact ⟨rfl, rfl⟩)

lemma decodeResponses_matches (cs : List PINECommand) (s : List Nat)
    (rs : List PINEResponse) (s2 : List Nat)
    (h : decodeResponses cs s = .ok (rs, s2)) :
    List.Forall₂ (fun c r => PINEResponse.opcodeOf r = PINECommand.to_opcode c ∧
      PINEResponse.kindOf r = PINECommand.respKind c) cs rs := by
  induction cs generalizing s rs s2 with
  | nil =>
    simp only [decodeResponses, Except.ok.injEq, Prod.mk.injEq] at h
    rw [← h.1]
    exact List.Forall₂.nil
  | cons c cs ih =>
    simp only [decodeResponses] at h
    cases hd : decodeResponse c s with
    | error e => rw [hd] at h; exact absurd h (by simp)
    | ok p =>
      obtain ⟨r, s1⟩ := p
      rw [hd] at h
      dsimp only at h
      cases ht : decodeResponses cs s1 with
      | error e => rw [ht] at h; exact absurd h (by simp)
      | ok q =>
        obtain ⟨rs1, s3⟩ := q
        rw [ht] at h
        simp only [Except.ok.injEq, Prod.mk.injEq] at h
        obtain ⟨h1, _⟩ := h
        subst h1
        exact List.Forall₂.cons (decodeResponse_matches c s r s1 hd) (ih s1 rs1 s3 ht)

/-- C1: a batch of N commands that `send` completes successfully yields
exactly N responses, in command order, and the variant of response i is
the one its command dictates: matching opcode position, and matching kind
(reads give integer values, writes and save/load-state give empty markers,
string queries give strings, the status query gives a `PINEStatus`). -/
theorem send_responses_match_commands (batch : PINEBatch) (incoming : List Nat)
    (rs : List PINEResponse) (s : List Nat)
    (h : PINE.send batch incoming = .ok (.Ok rs, s)) :
    rs.length = batch.commands.length ∧
    List.Forall₂ (fun c r => PINEResponse.opcodeOf r = PINECommand.to_opcode c ∧
      PINEResponse.kindOf r = PINECommand.respKind c) batch.commands rs := by
  simp only [PINE.send] at h
  cases hr : PINE.send_raw batch.finalize.buffer incoming with
  | error e => rw [hr] at h; exact absurd h (by simp)
  | ok p =>
    obtain ⟨res, s1⟩ := p
    rw [hr] at h
    cases res with
    | Fail =>
      dsimp only at h
      simp only [Except.ok.injEq, Prod.mk.injEq] at h
      exact absurd h.1 (by simp)
    | Ok res_buffer =>
      dsimp only at h
      cases hd : decodeResponses batch.commands res_buffer with
      | error e => rw [hd] at h; exact absurd h (by simp)
      | ok q =>
        obtain ⟨rs1, s3⟩ := q
        rw [hd] at h
        simp only [Except.ok.injEq, Prod.mk.injEq, PINEResult.Ok.injEq] at h
        obtain ⟨h1, _⟩ := h
        rw [← h1]
        have hf := decodeResponses_matches _ _ _ _ hd
        exact ⟨(List.Forall₂.length_eq hf).symm, hf⟩

/-- Witness for C1: a two-command batch (`MsgRead8`, `MsgWrite8`) against a
wire response of declared size 6, status 0 and payload `[42]` gives the two
responses `ResRead8 42, ResWrite8` in order. -/
theorem send_responses_match_commands_witness :
    ([PINEResponse.ResRead8 42, PINEResponse.ResWrite8].length =
      ((PINEBatch.new.add (PINECommand.MsgRead8 0)).add
        (PINECommand.MsgWrite8 5 7)).commands.length ∧
    List.Forall₂ (fun c r => PINEResponse.opcodeOf r = PINECommand.to_opcode c ∧
      PINEResponse.kindOf r = PINECommand.respKind c)
      ((PINEBatch.new.add (PINECommand.MsgRead8 0)).add
        (PINECommand.MsgWrite8 5 7)).commands
      [PINEResponse.ResRead8 42, PINEResponse.ResWrite8]) :=
  send_responses_match_commands
    ((PINEBatch.new.add (PINECommand.MsgRead8 0)).add (PINECommand.MsgWrite8 5 7))
    [6, 0, 0, 0, 0, 42] [PINEResponse.ResRead8 42, PINEResponse.ResWrite8] []
    (by rfl)

/-- C4: for every command variant, `add` appends the opcode byte followed
by the payload bytes in little-endian order — addresses as 4-byte u32,
values at the operation's width (1, 2, 4 or 8 bytes), state slots as one
byte, and nothing after the opcode for payload-less commands — and appends
the command to the ordered command list. -/
theorem add_appends_opcode_payload_command (b : PINEBatch) (mem val sta : Nat) :
    ((b.add (.MsgRead8 mem)).buffer = b.buffer ++ 0 :: u32ToLeBytes mem ∧
      (b.add (.MsgRead8 mem)).commands = b.commands ++ [.MsgRead8 mem]) ∧
    ((b.add (.MsgRead16 mem)).buffer = b.buffer ++ 1 :: u32ToLeBytes mem ∧
      (b.add (.MsgRead16 mem)).commands = b.commands ++ [.MsgRead16 mem]) ∧
    ((b.add (.MsgRead32 mem)).buffer = b.buffer ++ 2 :: u32ToLeBytes mem ∧
      (b.add (.MsgRead32 mem)).commands = b.commands ++ [.MsgRead32 mem]) ∧
    ((b.add (.MsgRead64 mem)).buffer = b.buffer ++ 3 :: u32ToLeBytes mem ∧
      (b.add (.MsgRead64 mem)).commands = b.commands ++ [.MsgRead64 mem]) ∧
    ((b.add (.MsgWrite8 mem val)).buffer =
        b.buffer ++ 4 :: (u32ToLeBytes mem ++ u8ToLeBytes val) ∧
      (b.add (.MsgWrite8 mem val)).commands = b.commands ++ [.MsgWrite8 mem val]) ∧
    ((b.add (.MsgWrite16 mem val)).buffer =
        b.buffer ++ 5 :: (u32ToLeBytes mem ++ u16ToLeBytes val) ∧
      (b.add (.MsgWrite16 mem val)).commands = b.commands ++ [.MsgWrite16 mem val]) ∧
    ((b.add (.MsgWrite32 mem val)).buffer =
        b.buffer ++ 6 :: (u32ToLeBytes mem ++ u32ToLeBytes val) ∧
      (b.add (.MsgWrite32 mem val)).commands = b.commands ++ [.MsgWrite32 mem val]) ∧
    ((b.add (.MsgWrite64 mem val)).buffer =
        b.buffer ++ 7 :: (u32ToLeBytes mem ++ u64ToLeBytes val) ∧
      (b.add (.MsgWrite64 mem val)).commands = b.commands ++ [.MsgWrite64 mem val]) ∧
    ((b.add .MsgVersion).buffer = b.buffer ++ [8] ∧
      (b.add .MsgVersion).commands = b.commands ++ [.MsgVersion]) ∧
    ((b.add (.MsgSaveState sta)).buffer = b.buffer ++ 9 :: u8ToLeBytes sta ∧
      (b.add (.MsgSaveState sta)).commands = b.commands ++ [.MsgSaveState sta]) ∧
    ((b.add (.MsgLoadState sta)).buffer = b.buffer ++ 10 :: u8ToLeBytes sta ∧
      (b.add (.MsgLoadState sta)).commands = b.commands ++ [.MsgLoadState sta]) ∧
    ((b.add .MsgTitle).buffer = b.buffer ++ [11] ∧
      (b.add .MsgTitle).commands = b.commands ++ [.MsgTitle]) ∧
    ((b.add .MsgID).buffer = b.buffer ++ [12] ∧
      (b.add .MsgID).commands = b.commands ++ [.MsgID]) ∧
    ((b.add .MsgUUID).buffer = b.buffer ++ [13] ∧
      (b.add .MsgUUID).commands = b.commands ++ [.MsgUUID]) ∧
    ((b.add .MsgGameVersion).buffer = b.buffer ++ [14] ∧
      (b.add .MsgGameVersion).commands = b.commands ++ [.MsgGameVersion]) ∧
    ((b.add .MsgStatus).buffer = b.buffer ++ [15] ∧
      (b.add .MsgStatus).commands = b.commands ++ [.MsgStatus]) ∧
    ((b.add .MsgUnimplemented).buffer = b.buffer ++ [255] ∧
      (b.add .MsgUnimplemented).commands = b.commands ++ [.MsgUnimplemented]) := by
  simp [PINEBatch.add, PINECommand.to_opcode]

/-- C7 counterexample: encoding `Write32{addr=0x1000, val=42}` puts 8
payload bytes after the opcode byte, not 9 as the claim counts them
(`new`'s buffer is the 4 reserved bytes, so index 4 is the opcode and the
payload is everything from index 5 on). -/
theorem write32_payload_after_opcode_not_nine :
    ¬ (((PINEBatch.new.add (PINECommand.MsgWrite32 0x1000 42)).buffer.drop 5).length = 9) := by
  decide

/-- C7 amended: encoding `Write32{addr=0x1000, val=42}` appends 9 bytes in
total — the opcode byte 6 followed by 8 payload bytes (4-byte LE address,
4-byte LE value) — and its decoded response is `ResWrite32`, a fieldless
zero-size marker that consumes nothing from the payload. -/
theorem write32_encoding_and_response :
    (PINEBatch.new.add (PINECommand.MsgWrite32 0x1000 42)).buffer =
      [0, 0, 0, 0] ++ [6, 0, 16, 0, 0, 42, 0, 0, 0] ∧
    ((PINEBatch.new.add (PINECommand.MsgWrite32 0x1000 42)).buffer.drop 4).length = 9 ∧
    ((PINEBatch.new.add (PINECommand.MsgWrite32 0x1000 42)).buffer.drop 5).length = 8 ∧
    (∀ s : List Nat, decodeResponse (PINECommand.MsgWrite32 0x1000 42) s =
      .ok (PINEResponse.ResWrite32, s)) :=
  ⟨by decide, by decide, by decide, fun _ => rfl⟩


lemma utf8DecodeCont2_length (b0 c : Nat) (l r : List Nat)
    (h : utf8DecodeCont2 b0 l = some (c, r)) : r.length < l.length := by
  cases l with
  | nil => exact Option.noConfusion h
  | cons b1 rest =>
    simp only [utf8DecodeCont2] at h
    split at h
    · injection h with h1
      injection h1 with hc hr
      subst hr
      simp only [List.length_cons]
      omega
    · exact Option.noConfusion h

lemma utf8DecodeCont3_length (b0 c : Nat) (l r : List Nat)
    (h : utf8DecodeCont3 b0 l = some (c, r)) : r.length < l.length := by
  match l with
  | [] => exact Option.noConfusion h
  | [b1] => exact Option.noConfusion h
  | b1 :: b2 :: rest =>
    simp only [utf8DecodeCont3] at h
    repeat' split at h
    all_goals first
    | exact Option.noConfusion h
    | (injection h with h1
       injection h1 with hc hr
       subst hr
       simp only [List.length_cons]
       omega)

lemma utf8DecodeCont4_length (b0 c : Nat) (l r : List Nat)
    (h : utf8DecodeCont4 b0 l = some (c, r)) : r.length < l.length := by
  match l with
  | [] => exact Option.noConfusion h
  | [b1] => exact Option.noConfusion h
  | [b1, b2] => exact Option.noConfusion h
  | b1 :: b2 :: b3 :: rest =>
    simp only [utf8DecodeCont4] at h
    repeat' split at h
    all_goals first
    | exact Option.noConfusion h
    | (injection h with h1
       injection h1 with hc hr
       subst hr
       simp only [List.length_cons]
       omega)

lemma utf8DecodeChar_length (l r : List Nat) (c : Nat)
    (h : utf8DecodeChar l = some (c, r)) : r.length < l.length := by
  cases l with
  | nil => exact Option.noConfusion h
  | cons b0 rest =>
    simp only [utf8DecodeChar] at h
    repeat' split at h
    all_goals first
    | exact Option.noConfusion h
    | (injection h with h1
       injection h1 with hc hr
       subst hr
       simp only [List.length_cons]
       omega)
    | (have hlt := utf8DecodeCont2_length b0 c rest r h
       simp only [List.length_cons]
       omega)
    | (have hlt := utf8DecodeCont3_length b0 c rest r h
       simp only [List.length_cons]
       omega)
    | (have hlt := utf8DecodeCont4_length b0 c rest r h
       simp only [List.length_cons]
       omega)

lemma utf8DecodeCont2_append (b0 c : Nat) (l r ys : List Nat)
    (h : utf8DecodeCont2 b0 l = some (c, r)) :
    utf8DecodeCont2 b0 (l ++ ys) = some (c, r ++ ys) := by
  cases l with
  | nil => exact Option.noConfusion h
  | cons b1 rest =>
    simp only [utf8DecodeCont2, List.cons_append] at h ⊢
    split at h
    · rename_i hcond
      rw [if_pos hcond]
      injection h with h1
      injection h1 with hc hr
      subst hc
      subst hr
      rfl
    · exact Option.noConfusion h

lemma utf8DecodeCont3_append (b0 c : Nat) (l r ys : List Nat)
    (h : utf8DecodeCont3 b0 l = some (c, r)) :
    utf8DecodeCont3 b0 (l ++ ys) = some (c, r ++ ys) := by
  match l with
  | [] => exact Option.noConfusion h
  | [b1] => exact Option.noConfusion h
  | b1 :: b2 :: rest =>
    simp only [utf8DecodeCont3, List.cons_append] at h ⊢
    split at h
    · rename_i hcond
      rw [if_pos hcond]
      split at h
      · exact Option.noConfusion h
      · rename_i hval
        rw [if_neg hval]
        injection h with h1
        injection h1 with hc hr
        subst hc
        subst hr
        rfl
    · exact Option.noConfusion h

lemma utf8DecodeCont4_append (b0 c : Nat) (l r ys : List Nat)
    (h : utf8DecodeCont4 b0 l = some (c, r)) :
    utf8DecodeCont4 b0 (l ++ ys) = some (c, r ++ ys) := by
  match l with
  | [] => exact Option.noConfusion h
  | [b1] => exact Option.noConfusion h
  | [b1, b2] => exact Option.noConfusion h
  | b1 :: b2 :: b3 :: rest =>
    simp only [utf8DecodeCont4, List.cons_append] at h ⊢
    split at h
    · rename_i hcond
      rw [if_pos hcond]
      split at h
      · exact Option.noConfusion h
      · rename_i hval
        rw [if_neg hval]
        injection h with h1
        injection h1 with hc hr
        subst hc
        subst hr
        rfl
    · exact Option.noConfusion h

lemma utf8DecodeChar_append (l r ys : List Nat) (c : Nat)
    (h : utf8DecodeChar l = some (c, r)) :
    utf8DecodeChar (l ++ ys) = some (c, r ++ ys) := by
  cases l with
  | nil => exact Option.noConfusion h
  | cons b0 rest =>
    simp only [utf8DecodeChar, List.cons_append] at h ⊢
    by_cases h1 : b0 < 0x80
    · rw [if_pos h1] at h ⊢
      injection h with h2
      injection h2 with hc hr
      subst hc
      subst hr
      rfl
    · rw [if_neg h1] at h ⊢
      by_cases h2 : b0 < 0xC2
      · rw [if_pos h2] at h
        exact Option.noConfusion h
      · rw [if_neg h2] at h ⊢
        by_cases h3 : b0 < 0xE0
        · rw [if_pos h3] at h ⊢
          exact utf8DecodeCont2_append b0 c rest r ys h
        · rw [if_neg h3] at h ⊢
          by_cases h4 : b0 < 0xF0
          · rw [if_pos h4] at h ⊢
            exact utf8DecodeCont3_append b0 c rest r ys h
          · rw [if_neg h4] at h ⊢
            by_cases h5 : b0 < 0xF5
            · rw [if_pos h5] at h ⊢
              exact utf8DecodeCont4_append b0 c rest r ys h
            · rw [if_neg h5] at h
              exact Option.noConfusion h

lemma utf8DecodeLoop_eq_of_le (f : Nat) :
    ∀ (g : Nat) (l : List Nat), l.length ≤ f → l.length ≤ g →
      utf8DecodeLoop f l = utf8DecodeLoop g l := by
  induction f with
  | zero =>
    intro g l hf hg
    have hl : l = [] := List.length_eq_zero.mp (Nat.le_zero.mp hf)
    subst hl
    cases g <;> rfl
  | succ f ih =>
    intro g l hf hg
    cases l with
    | nil => cases g <;> rfl
    | cons b0 rest =>
      cases g with
      | zero =>
        simp only [List.length_cons] at hg
        omega
      | succ g =>
        simp only [utf8DecodeLoop]
        cases hc : utf8DecodeChar (b0 :: rest) with
        | none => rfl
        | some p =>
          obtain ⟨c, rest2⟩ := p
          dsimp only
          have hlen : rest2.length < rest.length + 1 := by
            simpa using utf8DecodeChar_length _ _ _ hc
          simp only [List.length_cons] at hf hg
          rw [ih g rest2 (by omega) (by omega)]

lemma utf8Decode_cons (b0 : Nat) (rest : List Nat) :
    utf8Decode (b0 :: rest) =
      (match utf8DecodeChar (b0 :: rest) with
       | none => none
       | some (c, rest2) => (utf8Decode rest2).map (fun cs => c :: cs)) := by
  show utf8DecodeLoop (b0 :: rest).length (b0 :: rest) = _
  simp only [List.length_cons]
  rw [utf8DecodeLoop]
  cases hc : utf8DecodeChar (b0 :: rest) with
  | none => rfl
  | some p =>
    obtain ⟨c, rest2⟩ := p
    dsimp only
    have hlen : rest2.length < rest.length + 1 := by
      simpa using utf8DecodeChar_length _ _ _ hc
    rw [utf8DecodeLoop_eq_of_le rest.length rest2.length rest2 (by omega) (Nat.le_refl _)]
    rfl

lemma utf8Decode_append_aux (ys ds : List Nat) (hy : utf8Decode ys = some ds) :
    ∀ n (xs : List Nat), xs.length ≤ n → ∀ cs, utf8Decode xs = some cs →
      utf8Decode (xs ++ ys) = some (cs ++ ds) := by
  intro n
  induction n with
  | zero =>
    intro xs hl cs hx
    have hxe : xs = [] := List.length_eq_zero.mp (Nat.le_zero.mp hl)
    subst hxe
    have h0 : some ([] : List Nat) = some cs := hx
    injection h0 with h0
    subst h0
    simpa using hy
  | succ n ih =>
    intro xs hl cs hx
    cases xs with
    | nil =>
      have h0 : some ([] : List Nat) = some cs := hx
      injection h0 with h0
      subst h0
      simpa using hy
    | cons b0 rest =>
      rw [utf8Decode_cons] at hx
      rw [List.cons_append, utf8Decode_cons]
      cases hc : utf8DecodeChar (b0 :: rest) with
      | none =>
        rw [hc] at hx
        exact Option.noConfusion hx
      | some p =>
        obtain ⟨c, rest2⟩ := p
        rw [hc] at hx
        dsimp only at hx
        obtain ⟨cs1, hcs1, hmap⟩ := Option.map_eq_some'.mp hx
        subst hmap
        have hch := utf8DecodeChar_append (b0 :: rest) rest2 ys c hc
        rw [List.cons_append] at hch
        rw [hch]
        dsimp only
        have hlen : rest2.length < rest.length + 1 := by
          simpa using utf8DecodeChar_length _ _ _ hc
        simp only [List.length_cons] at hl
        rw [ih rest2 (by omega) cs1 hcs1]
        rfl

lemma utf8Decode_append (xs ys cs ds : List Nat)
    (hx : utf8Decode xs = some cs) (hy : utf8Decode ys = some ds) :
    utf8Decode (xs ++ ys) = some (cs ++ ds) :=
  utf8Decode_append_aux ys ds hy xs.length xs (Nat.le_refl _) cs hx

lemma read_string_valid (bytes rest cs : List Nat)
    (hv : utf8Decode bytes = some cs) (hlen : bytes.length < 2 ^ 32) :
    read_string (u32ToLeBytes bytes.length ++ (bytes ++ rest)) =
      .ok (cs.dropLast, rest) := by
  simp only [read_string]
  rw [read_u32_leBytes]
  dsimp only
  rw [Nat.mod_eq_of_lt hlen, readExact_append _ _ _ rfl]
  dsimp only
  rw [hv]

/-- C5 counterexample: the two-byte field `[0xC3, 0xA9]` ("é") is valid
UTF-8, yet decoding returns the empty string: `String::pop` removed the
whole two-byte final character, so the result is not "those bytes with
exactly the final byte dropped" (which would leave one byte). -/
theorem read_string_multibyte_final_char_cex :
    utf8Decode [0xC3, 0xA9] = some [0xE9] ∧
    read_string [2, 0, 0, 0, 0xC3, 0xA9] = .ok ([], []) ∧
    utf8Encode [] ≠ List.dropLast [0xC3, 0xA9] :=
  ⟨rfl, rfl, by decide⟩

/-- C5 amended: `read_string` reads a u32 length, reads exactly that many
bytes, and drops the final *character* of the decoded string (the
`String::pop` in the source) — exactly the final byte only when that
character is a single byte.  For a field of valid UTF-8 followed by the
protocol-mandated null terminator byte this drops exactly that final
byte; in particular the length-6 field "ABCDE\0" decodes to "ABCDE". -/
theorem read_string_drops_final_char (bs rest cs : List Nat)
    (hv : utf8Decode bs = some cs) (hlen : bs.length + 1 < 2 ^ 32) :
    read_string (u32ToLeBytes (bs.length + 1) ++ ((bs ++ [0]) ++ rest)) = .ok (cs, rest) ∧
    (∀ bytes cs2, utf8Decode bytes = some cs2 → bytes.length < 2 ^ 32 →
      read_string (u32ToLeBytes bytes.length ++ (bytes ++ rest)) =
        .ok (cs2.dropLast, rest)) ∧
    read_string [6, 0, 0, 0, 65, 66, 67, 68, 69, 0] = .ok ([65, 66, 67, 68, 69], []) := by
  refine ⟨?_, fun bytes cs2 hv2 hlen2 => read_string_valid bytes rest cs2 hv2 hlen2, rfl⟩
  have hz : utf8Decode [0] = some [0] := rfl
  have hdec := utf8Decode_append bs [0] cs [0] hv hz
  have h1 := read_string_valid (bs ++ [0]) rest (cs ++ [0]) hdec (by simpa using hlen)
  rw [List.dropLast_concat] at h1
  simpa using h1

/-- Witness for C5's amended theorem at the spec's own example: the field
"ABCDE" plus null terminator, length 6, decodes to "ABCDE" with the rest
of the stream untouched. -/
theorem read_string_drops_final_char_witness :
    read_string [6, 0, 0, 0, 65, 66, 67, 68, 69, 0] = .ok ([65, 66, 67, 68, 69], []) :=
  (read_string_drops_final_char [65, 66, 67, 68, 69] [] [65, 66, 67, 68, 69]
    rfl (by decide)).2.2

/-- C6 counterexample: on an invalid-UTF-8 title field the decode ends in
the `unwrap` panic, which is not an I/O-error result returned to `send`'s
caller. -/
theorem invalid_utf8_not_error_result_cex :
    PINE.send (PINEBatch.new.add PINECommand.MsgTitle)
      [11, 0, 0, 0, 0, 2, 0, 0, 0, 0xFF, 0xFF] = .error .panicInvalidUtf8 ∧
    SendErr.panicInvalidUtf8 ≠ SendErr.ioError :=
  ⟨rfl, by decide⟩

/-- C6 amended: invalid UTF-8 in a string field makes decoding panic at
the `from_utf8(..).unwrap()` inside `read_string`, which immediately
aborts the rest of the batch's decoding — no response list is produced for
the remaining commands; the failure is a panic (process abort), not an
error value surfaced to the caller of `send`. -/
theorem invalid_utf8_aborts_decoding (bytes rest : List Nat)
    (cs : List PINECommand) (hv : utf8Decode bytes = none)
    (hlen : bytes.length < 2 ^ 32) :
    decodeResponses (PINECommand.MsgTitle :: cs)
      (u32ToLeBytes bytes.length ++ (bytes ++ rest)) = .error .panicInvalidUtf8 := by
  have hrs : read_string (u32ToLeBytes bytes.length ++ (bytes ++ rest)) =
      .error .panicInvalidUtf8 := by
    simp only [read_string]
    rw [read_u32_leBytes]
    dsimp only
    rw [Nat.mod_eq_of_lt hlen, readExact_append _ _ _ rfl]
    dsimp only
    rw [hv]
  simp only [decodeResponses, decodeResponse, hrs]

/-- Witness for C6's amended theorem: an invalid one-byte field (0xFF) in
front of a further command aborts decoding with the panic outcome. -/
theorem invalid_utf8_aborts_decoding_witness :
    decodeResponses [PINECommand.MsgTitle, PINECommand.MsgRead8 0]
      (u32ToLeBytes 1 ++ ([0xFF] ++ [42])) = .error .panicInvalidUtf8 :=
  invalid_utf8_aborts_decoding [0xFF] [42] [PINECommand.MsgRead8 0] rfl (by decide)

/-- C8 counterexample: on the host family "freebsd" `connect` reaches the
`panic!("Unsupported operating system")` arm: the call aborts and no error
condition is returned to the caller. -/
theorem connect_unsupported_os_cex :
    PINE.connect "freebsd" none "pcsx2" 28011 true (fun _ => true) true true =
      ConnectOutcome.panicUnsupportedOS ∧
    (PINE.connect "freebsd" none "pcsx2" 28011 true
      (fun _ => true) true true).isErrReturn = false := by
  constructor <;> rfl

/-- C8 amended: on any host family other than linux, macos and windows,
`connect` panics with "Unsupported operating system" — a distinct failure
condition, but an abort rather than an error value returned to the
caller. -/
theorem connect_unsupported_os_panics (os : String) (envVar : Option String)
    (target : String) (slot : Nat) (auto : Bool) (pathExists : String → Bool)
    (unixConnectOk tcpConnectOk : Bool)
    (h1 : os ≠ "linux") (h2 : os ≠ "macos") (h3 : os ≠ "windows") :
    PINE.connect os envVar target slot auto pathExists unixConnectOk tcpConnectOk =
      ConnectOutcome.panicUnsupportedOS ∧
    (PINE.connect os envVar target slot auto pathExists unixConnectOk
      tcpConnectOk).isErrReturn = false := by
  have hp : PINE.connect os envVar target slot auto pathExists unixConnectOk tcpConnectOk =
      ConnectOutcome.panicUnsupportedOS := by
    simp only [PINE.connect]
    rw [if_neg (not_or.mpr ⟨h1, h2⟩), if_neg h3]
  refine ⟨hp, ?_⟩
  rw [hp]
  rfl

/-- Witness for C8's amended theorem at the concrete host family
"solaris". -/
theorem connect_unsupported_os_panics_witness :
    PINE.connect "solaris" none "rpcs3" 28012 true (fun _ => false) false false =
      ConnectOutcome.panicUnsupportedOS ∧
    (PINE.connect "solaris" none "rpcs3" 28012 true
      (fun _ => false) false false).isErrReturn = false :=
  connect_unsupported_os_panics "solaris" none "rpcs3" 28012 true (fun _ => false)
    false false (by decide) (by decide) (by decide)
